import Mathlib

/-!
Verification of the vscode-test download-and-launch orchestration engine.

JavaScript strings are modelled as `List Char` (written `Str` below); every
string literal in a model is produced from a Lean string literal through
`String.data`, which keeps all definitions kernel-evaluable.
-/

namespace VSCodeTest

/-- JS strings, modelled as lists of characters. -/
abbrev Str := List Char

/-- Shorthand turning a Lean string literal into the `Str` model. -/
def str (s : String) : Str := s.data

/-- ASCII digit test, the character class `[0-9]`. -/
def isAsciiDigit (c : Char) : Bool := decide ('0' ≤ c) && decide (c ≤ '9')

/-- Splits a character list at every occurrence of the separator character,
keeping empty segments, like JS `String.prototype.split` with a one-character
separator. -/
def splitOnChar (sep : Char) : Str → List Str
  | [] => [[]]
  | c :: rest =>
    let r := splitOnChar sep rest
    if c = sep then [] :: r
    else
      match r with
      | h :: t => (c :: h) :: t
      | [] => [[c]]

/-- The list returned by `splitOnChar` is never empty. -/
theorem splitOnChar_ne_nil (sep : Char) (s : Str) : splitOnChar sep s ≠ [] := by
  cases s with
  | nil => simp [splitOnChar]
  | cons c rest =>
    simp only [splitOnChar]
    rcases h : splitOnChar sep rest with _ | ⟨h', t⟩
    · by_cases hc : c = sep <;> simp [hc]
    · by_cases hc : c = sep <;> simp [hc]

/-- Test for the regular expression `^[0-9]+\.[0-9]+\.[0-9]$` used by the
version classifier in `src/lib/request.ts` (both `isStableVersionIdentifier`
and `Version.isStable` use this exact pattern): two nonempty runs of digits,
then a single final digit, separated by literal dots. -/
def stableVersionPattern (s : Str) : Bool :=
  match splitOnChar '.' s with
  | [a, b, c] =>
    !a.isEmpty && a.all isAsciiDigit && !b.isEmpty && b.all isAsciiDigit &&
      c.length == 1 && c.all isAsciiDigit
  | _ => false

/-- Model of `isStableVersionIdentifier` (src/lib/request.ts:569-571):
`version === 'stable' || /^[0-9]+\.[0-9]+\.[0-9]$/.test(version)`. -/
def isStableVersionIdentifier (version : Str) : Bool :=
  version == str "stable" || stableVersionPattern version

/-- Model of `isInsiderVersionIdentifier` (src/lib/request.ts:565-567):
`version === 'insiders' || version.endsWith('-insider')`. -/
def isInsiderVersionIdentifier (version : Str) : Bool :=
  version == str "insiders" || (str "-insider").isSuffixOf version

/-- The `-unreleased` suffix recognized by `Version.parse`
(src/lib/request.ts:163). -/
def UNRELEASED_SUFFIX : Str := str "-unreleased"

/-- Model of the `Version` value type (src/lib/request.ts:165-192). -/
structure Version where
  id : Str
  isReleased : Bool := true
deriving DecidableEq, Repr

/-- Model of `Version.parse` (src/lib/request.ts:166-173): strip a trailing
`-unreleased` suffix and record whether it was present. -/
def Version.parse (version : Str) : Version :=
  if UNRELEASED_SUFFIX.isSuffixOf version then
    { id := version.take (version.length - UNRELEASED_SUFFIX.length), isReleased := false }
  else
    { id := version, isReleased := true }

/-- Model of the `Version.isStable` getter (src/lib/request.ts:185-187):
`this.id === 'stable' || /^[0-9]+\.[0-9]+\.[0-9]$/.test(this.id)`. -/
def Version.isStable (v : Version) : Bool :=
  v.id == str "stable" || stableVersionPattern v.id

/-- Model of the `Version.isCommit` getter (src/lib/request.ts:177-179):
`/^[0-9a-f]{40}$/.test(this.id)`. -/
def Version.isCommit (v : Version) : Bool :=
  v.id.length == 40 && v.id.all fun c => isAsciiDigit c || (decide ('a' ≤ c) && decide (c ≤ 'f'))

/-- Model of the `Version.isInsiders` getter (src/lib/request.ts:181-183). -/
def Version.isInsiders (v : Version) : Bool :=
  v.id == str "insiders" || (str "-insider").isSuffixOf v.id

/-- Claim C4 counterexample: the version id "1.2.34" matches the spec's
pattern `\d+\.\d+\.\d+` (three decimal components, the third of length two),
yet neither `isStableVersionIdentifier` nor `Version.isStable` classifies it
as stable, because the code's regular expression `^[0-9]+\.[0-9]+\.[0-9]$`
allows only a single digit in the third component. -/
theorem c4_counterexample :
    isStableVersionIdentifier (str "1.2.34") = false ∧
      (Version.parse (str "1.2.34")).isStable = false ∧
      (splitOnChar '.' (str "1.2.34") = [str "1", str "2", str "34"] ∧
        (str "34").all isAsciiDigit = true) := by
  decide

/-- Claim C4, amended: for every version id of the form `\d+\.\d+\.\d`
(first two components nonempty digit runs of any length, third component a
single digit), and for the literal id "stable", both `isStableVersionIdentifier`
and `Version.isStable` classify the id as stable. -/
theorem c4_amended (a b : Str) (c : Char)
    (ha : a ≠ [] ∧ a.all isAsciiDigit = true)
    (hb : b ≠ [] ∧ b.all isAsciiDigit = true)
    (hc : isAsciiDigit c = true) :
    isStableVersionIdentifier (a ++ '.' :: (b ++ ['.', c])) = true ∧
      (Version.mk (a ++ '.' :: (b ++ ['.', c])) true).isStable = true ∧
      isStableVersionIdentifier (str "stable") = true ∧
      (Version.mk (str "stable") true).isStable = true := by
  have hdigit_ne_dot : ∀ x : Char, isAsciiDigit x = true → x ≠ '.' := by
    intro x hx heq
    subst heq
    exact absurd hx (by decide)
  have hsplit : ∀ (l : Str), l.all isAsciiDigit = true →
      ∀ (tail : Str), splitOnChar '.' (l ++ '.' :: tail) =
        l :: splitOnChar '.' tail := by
    intro l hl tail
    induction l with
    | nil => simp [splitOnChar]
    | cons x xs ih =>
      simp only [List.all_cons, Bool.and_eq_true] at hl
      have hx := hdigit_ne_dot x hl.1
      have hxs := ih hl.2
      simp only [List.cons_append, splitOnChar, List.append_eq, hxs, if_neg hx]
  have hsplit_last : splitOnChar '.' [c] = [[c]] := by
    have hx := hdigit_ne_dot c hc
    simp [splitOnChar, hx]
  have key : stableVersionPattern (a ++ '.' :: (b ++ ['.', c])) = true := by
    rw [stableVersionPattern, hsplit a ha.2 (b ++ ['.', c]), hsplit b hb.2 [c], hsplit_last]
    simp [ha.1, ha.2, hb.1, hb.2, hc, List.isEmpty_iff]
  refine ⟨?_, ?_, by decide, by decide⟩
  · simp [isStableVersionIdentifier, key]
  · simp [Version.isStable, key]

/-- Claim C4 amended, witness: instantiated at "1.2.3". -/
theorem c4_witness :
    isStableVersionIdentifier (str "1" ++ '.' :: (str "2" ++ ['.', '3'])) = true ∧
      (Version.mk (str "1" ++ '.' :: (str "2" ++ ['.', '3'])) true).isStable = true ∧
      isStableVersionIdentifier (str "stable") = true ∧
      (Version.mk (str "stable") true).isStable = true :=
  c4_amended (str "1") (str "2") '3' (by decide) (by decide) (by decide)

/-! Profile arguments (src/lib/request.ts:367-382). -/

/-- The per-argument predicate used by `hasArg` (src/lib/request.ts:380-382):
an argument supplies the flag `argName` when it equals `--argName` or starts
with `--argName=`. -/
def suppliesArg (argName : Str) (a : Str) : Bool :=
  a == str "--" ++ argName || (str "--" ++ argName ++ str "=").isPrefixOf a

/-- Model of `hasArg` (src/lib/request.ts:380-382). -/
def hasArg (argName : Str) (argList : List Str) : Bool :=
  argList.any (suppliesArg argName)

/-- POSIX `path.join` for an absolute base and a separator-free relative
name, as used with `defaultCachePath` and the literals "extensions" and
"user-data". -/
def pathJoin (base rel : Str) : Str := base ++ '/' :: rel

/-- Model of `getProfileArguments` (src/lib/request.ts:367-378),
parameterized by the module's `defaultCachePath`. -/
def getProfileArguments (defaultCachePath : Str) (args : List Str) : List Str :=
  (if !hasArg (str "extensions-dir") args then
    [str "--extensions-dir=" ++ pathJoin defaultCachePath (str "extensions")]
  else []) ++
  (if !hasArg (str "user-data-dir") args then
    [str "--user-data-dir=" ++ pathJoin defaultCachePath (str "user-data")]
  else [])

theorem suppliesArg_ext_extFlag (x : Str) :
    suppliesArg (str "extensions-dir") (str "--extensions-dir=" ++ x) = true := by
  simp only [suppliesArg, Bool.or_eq_true]
  right
  rw [List.isPrefixOf_iff_prefix]
  exact ⟨x, rfl⟩

theorem suppliesArg_ud_udFlag (x : Str) :
    suppliesArg (str "user-data-dir") (str "--user-data-dir=" ++ x) = true := by
  simp only [suppliesArg, Bool.or_eq_true]
  right
  rw [List.isPrefixOf_iff_prefix]
  exact ⟨x, rfl⟩

theorem suppliesArg_ext_udFlag (x : Str) :
    suppliesArg (str "extensions-dir") (str "--user-data-dir=" ++ x) = false := rfl

theorem suppliesArg_ud_extFlag (x : Str) :
    suppliesArg (str "user-data-dir") (str "--extensions-dir=" ++ x) = false := rfl

/-- Claim C10: `getProfileArguments` emits a `--extensions-dir=...` flag only
when no caller argument already supplies `extensions-dir`, and likewise for
`user-data-dir`; so when the caller supplied the flag, no emitted argument
mentions it (nothing is overridden and no duplicate is appended), and when
the caller did not, exactly one emitted argument supplies it. -/
theorem c10_profile_arguments (cachePath : Str) (args : List Str) (name : Str)
    (hname : name = str "extensions-dir" ∨ name = str "user-data-dir") :
    (hasArg name args = true →
      ∀ f ∈ getProfileArguments cachePath args, suppliesArg name f = false) ∧
    (hasArg name args = false →
      ((getProfileArguments cachePath args).filter (suppliesArg name)).length = 1) := by
  rcases hname with h | h <;> subst h <;>
    constructor <;> intro hhas <;>
    simp only [getProfileArguments, hhas, Bool.not_true, Bool.not_false, if_true, if_false] <;>
    cases hud : hasArg (str "user-data-dir") args <;>
    cases hext : hasArg (str "extensions-dir") args <;>
    simp_all [List.filter, suppliesArg_ext_extFlag, suppliesArg_ud_udFlag,
      suppliesArg_ext_udFlag, suppliesArg_ud_extFlag, pathJoin]

/-- Claim C10, witness: with `--extensions-dir` already supplied, the output
mentions only `user-data-dir`, exactly once. -/
theorem c10_witness :
    hasArg (str "extensions-dir") [str "--extensions-dir=/tmp/x"] = true ∧
      (∀ f ∈ getProfileArguments (str "/cache") [str "--extensions-dir=/tmp/x"],
        suppliesArg (str "extensions-dir") f = false) ∧
      hasArg (str "user-data-dir") [str "--extensions-dir=/tmp/x"] = false ∧
      ((getProfileArguments (str "/cache") [str "--extensions-dir=/tmp/x"]).filter
        (suppliesArg (str "user-data-dir"))).length = 1 := by
  refine ⟨by decide, ?_, by decide, ?_⟩
  · exact (c10_profile_arguments (str "/cache") [str "--extensions-dir=/tmp/x"]
      (str "extensions-dir") (Or.inl rfl)).1 (by decide)
  · exact (c10_profile_arguments (str "/cache") [str "--extensions-dir=/tmp/x"]
      (str "user-data-dir") (Or.inr rfl)).2 (by decide)

/-! Exit-code interpretation of the launched application
(src/lib/runTest.ts:287-298). -/

/-- One settlement operation performed on the result promise by the `close`
listener in `innerRunTests`. -/
inductive SettleOp where
  | rejectSignal (signal : Str)
  | rejectFailed
  | resolveCode (code : Option Int)
deriving DecidableEq, Repr

/-- The settlement operations the `close` listener issues for a given
`(code, signal)` pair, in program order (src/lib/runTest.ts:290-297):
`reject(signal)` when the exit code is null, otherwise `reject('Failed')`
when it is nonzero, always followed by `resolve(code)`. -/
def closeListenerOps (code : Option Int) (signal : Str) : List SettleOp :=
  (match code with
   | none => [SettleOp.rejectSignal signal]
   | some c => if c ≠ 0 then [SettleOp.rejectFailed] else []) ++
  [SettleOp.resolveCode code]

/-- A promise settles with the first settlement operation applied to it;
all later resolve/reject calls are ignored. -/
def promiseOutcome (ops : List SettleOp) : Option SettleOp := ops.head?

/-- Outcome of the promise returned by `innerRunTests` once the child's
`close` event fires with the given exit code and signal. -/
def runTestsCloseResult (code : Option Int) (signal : Str) : Option SettleOp :=
  promiseOutcome (closeListenerOps code signal)

/-- Claim C8: a null exit code rejects the promise with the signal, a
non-null nonzero code rejects it as a process failure, and a zero code
resolves it with 0. -/
theorem c8_exit_interpretation (code : Option Int) (signal : Str) :
    (code = none →
      runTestsCloseResult code signal = some (SettleOp.rejectSignal signal)) ∧
    (∀ c : Int, code = some c → c ≠ 0 →
      runTestsCloseResult code signal = some SettleOp.rejectFailed) ∧
    (code = some 0 →
      runTestsCloseResult code signal = some (SettleOp.resolveCode (some 0))) := by
  refine ⟨?_, ?_, ?_⟩
  · rintro rfl
    rfl
  · rintro c rfl hc
    simp [runTestsCloseResult, closeListenerOps, promiseOutcome, hc]
  · rintro rfl
    rfl

/-- Claim C8, witness: concrete exits for each of the three cases. -/
theorem c8_witness :
    runTestsCloseResult none (str "SIGTERM") =
        some (SettleOp.rejectSignal (str "SIGTERM")) ∧
      runTestsCloseResult (some 1) (str "") = some SettleOp.rejectFailed ∧
      runTestsCloseResult (some 0) (str "") = some (SettleOp.resolveCode (some 0)) :=
  ⟨(c8_exit_interpretation none (str "SIGTERM")).1 rfl,
    (c8_exit_interpretation (some 1) (str "")).2.1 1 rfl (by decide),
    (c8_exit_interpretation (some 0) (str "")).2.2 rfl⟩

/-! The once-without-rejections memo (src/lib/request.ts:494-506). -/

/-- State of the closure created by `onceWithoutRejections`: the captured
`value` variable (holding the id of the memoized promise, or nothing), a
counter of calls made to the wrapped function `fn`, and a supply of fresh
promise ids. -/
structure MemoState where
  value : Option Nat
  fnCalls : Nat
  nextId : Nat
deriving DecidableEq, Repr

/-- Initial closure state: `value` is undefined, `fn` has never been
called. -/
def memoInit : MemoState := { value := none, fnCalls := 0, nextId := 0 }

/-- Events acting on the memo: an invocation of the wrapper, and the
settlement (fulfillment or rejection) of the in-flight promise. -/
inductive MemoEvent where
  | invoke
  | fulfill
  | reject
deriving DecidableEq, Repr

/-- One step of the `onceWithoutRejections` closure
(src/lib/request.ts:496-505). On `invoke`: when `value` is set it is
returned as-is and `fn` is not called; when it is unset, `fn` is called and
`value` is set to the new promise. On fulfillment nothing changes (the
`.catch` handler does not run). On rejection the `.catch` handler resets
`value` to undefined. Returns the new state and, for an invocation, the id
of the promise handed back to the caller. -/
def memoStep (s : MemoState) : MemoEvent → MemoState × Option Nat
  | MemoEvent.invoke =>
    match s.value with
    | some p => (s, some p)
    | none =>
      ({ value := some s.nextId, fnCalls := s.fnCalls + 1, nextId := s.nextId + 1 },
        some s.nextId)
  | MemoEvent.fulfill => (s, none)
  | MemoEvent.reject => ({ s with value := none }, none)

/-- Folds a sequence of events over the memo, starting from a given state. -/
def memoRun (s : MemoState) : List MemoEvent → MemoState
  | [] => s
  | e :: es => memoRun (memoStep s e).1 es

theorem memoRun_append (s : MemoState) (l₁ l₂ : List MemoEvent) :
    memoRun s (l₁ ++ l₂) = memoRun (memoRun s l₁) l₂ := by
  induction l₁ generalizing s with
  | nil => rfl
  | cons e es ih => simp [memoRun, ih]

/-- Invariant used for the at-most-once part of claim C9: along any
rejection-free run the wrapped function is called at most once, and has not
been called at all while `value` is still unset. -/
theorem memoRun_no_reject_invariant (events : List MemoEvent)
    (hnr : ∀ e ∈ events, e ≠ MemoEvent.reject)
    (s : MemoState)
    (hs : s.fnCalls ≤ 1 ∧ (s.value = none → s.fnCalls = 0)) :
    (memoRun s events).fnCalls ≤ 1 ∧
      ((memoRun s events).value = none → (memoRun s events).fnCalls = 0) := by
  induction events generalizing s with
  | nil => exact hs
  | cons e es ih =>
    have he := hnr e (List.mem_cons_self e es)
    have hes : ∀ x ∈ es, x ≠ MemoEvent.reject := fun x hx => hnr x (List.mem_cons_of_mem e hx)
    cases e with
    | invoke =>
      cases hv : s.value with
      | some p =>
        have hrun : memoRun s (MemoEvent.invoke :: es) = memoRun s es := by
          simp [memoRun, memoStep, hv]
        rw [hrun]
        exact ih hes s hs
      | none =>
        refine ih hes _ ?_
        refine ⟨?_, ?_⟩
        · have := (hs.2) hv
          simp [memoStep, hv, this]
        · intro h
          simp [memoStep, hv] at h
    | fulfill => exact ih hes s (by simpa [memoRun, memoStep] using hs)
    | reject => exact absurd rfl he

/-- Claim C9: (1) while a previous invocation's promise is pending or
resolved (`value` set), a later invocation returns that same promise without
calling the wrapped function again; (2) along any rejection-free event
sequence from the initial state the wrapped function is called at most once;
(3) a rejection resets the memo to empty, and an invocation right after it
calls the wrapped function again — a rejection is never cached. -/
theorem c9_once_without_rejections (s : MemoState) (p : Nat)
    (hp : s.value = some p) (events : List MemoEvent)
    (hnr : ∀ e ∈ events, e ≠ MemoEvent.reject) :
    (memoStep s MemoEvent.invoke = (s, some p)) ∧
    (memoRun memoInit events).fnCalls ≤ 1 ∧
    ((memoStep s MemoEvent.reject).1.value = none ∧
      ((memoStep (memoStep s MemoEvent.reject).1 MemoEvent.invoke).1).fnCalls =
        s.fnCalls + 1) := by
  refine ⟨by simp [memoStep, hp], ?_, by simp [memoStep], by simp [memoStep]⟩
  exact (memoRun_no_reject_invariant events hnr memoInit (by simp [memoInit])).1

/-- Claim C9, witness: a pending promise exists (id 0) after one invocation;
two further invocations and a fulfillment never call `fn` again, and after a
rejection the next invocation does call it again. -/
theorem c9_witness :
    (memoRun memoInit [MemoEvent.invoke]).value = some 0 ∧
      (memoStep (memoRun memoInit [MemoEvent.invoke]) MemoEvent.invoke =
        (memoRun memoInit [MemoEvent.invoke], some 0)) ∧
      (memoRun memoInit
        [MemoEvent.invoke, MemoEvent.fulfill, MemoEvent.invoke]).fnCalls ≤ 1 ∧
      ((memoStep (memoRun memoInit [MemoEvent.invoke]) MemoEvent.reject).1.value =
        none ∧
       ((memoStep (memoStep (memoRun memoInit [MemoEvent.invoke])
          MemoEvent.reject).1 MemoEvent.invoke).1).fnCalls =
        (memoRun memoInit [MemoEvent.invoke]).fnCalls + 1) := by
  have h := c9_once_without_rejections (memoRun memoInit [MemoEvent.invoke]) 0
    (by decide) [MemoEvent.invoke, MemoEvent.fulfill, MemoEvent.invoke]
    (by decide)
  exact ⟨by decide, h.1, h.2.1, h.2.2⟩

/-! Download progress events (src/lib/download.ts:124-141). -/

/-- The cumulative `bytesSoFar` values reported by the per-chunk `data`
listener (src/lib/download.ts:127-131), starting from the given running
total. -/
def chunkReports (acc : Nat) : List Nat → List Nat
  | [] => []
  | c :: cs => (acc + c) :: chunkReports (acc + c) cs

/-- The `bytesSoFar` values of all `Downloading` progress reports of one
download, in order (src/lib/download.ts:124-136): the initial report at 0,
one report per data chunk with the cumulative byte count, and the final
report issued by the `end` listener, which always carries
`bytesSoFar = totalBytes`. -/
def downloadProgressEvents (chunks : List Nat) (totalBytes : Nat) : List Nat :=
  0 :: (chunkReports 0 chunks ++ [totalBytes])

/-- Claim C7 counterexample: a download of 5 total bytes delivered in one
5-byte chunk reports `bytesSoFar` values [0, 5, 5] — the sequence is not
strictly increasing and `totalBytes` occurs twice (the last chunk report and
the stream-end report), not exactly once. -/
theorem c7_counterexample :
    downloadProgressEvents [5] 5 = [0, 5, 5] ∧
      ¬ List.Chain' (· < ·) (downloadProgressEvents [5] 5) ∧
      (downloadProgressEvents [5] 5).count 5 = 2 := by
  refine ⟨rfl, ?_, rfl⟩
  intro h
  rw [show downloadProgressEvents [5] 5 = [0, 5, 5] from rfl] at h
  simp [List.chain'_cons] at h

theorem chunkReports_chain (acc : Nat) (chunks : List Nat)
    (hpos : ∀ c ∈ chunks, 0 < c) :
    List.Chain' (· < ·) (acc :: chunkReports acc chunks) := by
  induction chunks generalizing acc with
  | nil => simp [chunkReports]
  | cons c cs ih =>
    have hc := hpos c (List.mem_cons_self c cs)
    have hcs : ∀ x ∈ cs, 0 < x := fun x hx => hpos x (List.mem_cons_of_mem c hx)
    simp only [chunkReports, List.chain'_cons]
    exact ⟨by omega, ih (acc + c) hcs⟩

theorem chunkReports_getLast (acc : Nat) (chunks : List Nat) :
    (acc :: chunkReports acc chunks).getLast (by simp) = acc + chunks.sum := by
  induction chunks generalizing acc with
  | nil => simp [chunkReports]
  | cons c cs ih =>
    simp only [chunkReports, List.sum_cons]
    rw [List.getLast_cons (by simp)]
    rw [ih (acc + c)]
    omega

theorem chunkReports_chain_le (acc : Nat) (chunks : List Nat) :
    List.Chain' (· ≤ ·) (acc :: (chunkReports acc chunks ++ [acc + chunks.sum])) := by
  induction chunks generalizing acc with
  | nil => simp [chunkReports]
  | cons c cs ih =>
    simp only [chunkReports, List.sum_cons, List.cons_append, List.chain'_cons]
    refine ⟨by omega, ?_⟩
    have := ih (acc + c)
    rwa [show acc + (c + cs.sum) = acc + c + cs.sum by omega]

/-- Claim C7, amended: for a completed download (every data chunk nonempty,
chunks summing to `totalBytes`), the reported `bytesSoFar` values are
strictly increasing over the initial and per-chunk reports, and the
stream-end listener emits one more final report repeating
`bytesSoFar = totalBytes`; thus the whole sequence is nondecreasing, ends at
`totalBytes`, and `totalBytes` is reported exactly twice (once by the last
chunk, once at stream end), not exactly once. -/
theorem c7_amended (chunks : List Nat) (totalBytes : Nat)
    (hpos : ∀ c ∈ chunks, 0 < c) (hsum : chunks.sum = totalBytes) :
    List.Chain' (· < ·) (downloadProgressEvents chunks totalBytes).dropLast ∧
      (downloadProgressEvents chunks totalBytes).getLast? = some totalBytes ∧
      List.Chain' (· ≤ ·) (downloadProgressEvents chunks totalBytes) ∧
      (downloadProgressEvents chunks totalBytes).count totalBytes = 2 := by
  have hshape : downloadProgressEvents chunks totalBytes =
      (0 :: chunkReports 0 chunks) ++ [totalBytes] := by
    simp [downloadProgressEvents]
  have hchain := chunkReports_chain 0 chunks hpos
  have hlast : (0 :: chunkReports 0 chunks).getLast (by simp) = totalBytes := by
    rw [chunkReports_getLast]
    omega
  refine ⟨?_, ?_, ?_, ?_⟩
  · rw [hshape, List.dropLast_concat]
    exact hchain
  · rw [hshape, List.getLast?_concat]
  · have := chunkReports_chain_le 0 chunks
    rw [hshape]
    simpa [hsum] using this
  · rw [hshape, List.count_append]
    have hnodup : (0 :: chunkReports 0 chunks).Nodup :=
      (List.chain'_iff_pairwise.mp hchain).imp Nat.ne_of_lt
    have hmem : totalBytes ∈ 0 :: chunkReports 0 chunks := by
      rw [← hlast]
      exact List.getLast_mem (by simp)
    rw [List.count_eq_one_of_mem hnodup hmem]
    simp

/-- Claim C7 amended, witness: chunks [3, 2] with totalBytes 5. -/
theorem c7_amended_witness :
    List.Chain' (· < ·) (downloadProgressEvents [3, 2] 5).dropLast ∧
      (downloadProgressEvents [3, 2] 5).getLast? = some 5 ∧
      List.Chain' (· ≤ ·) (downloadProgressEvents [3, 2] 5) ∧
      (downloadProgressEvents [3, 2] 5).count 5 = 2 :=
  c7_amended [3, 2] 5 (by decide) (by decide)

/-! Stable-version fallback inference (src/lib/download.ts:25-56). -/

/-- Decimal digits to a natural number. -/
def digitsToNat (cs : Str) : Nat :=
  cs.foldl (fun n c => 10 * n + (c.toNat - '0'.toNat)) 0

/-- JS `Number(s)` for a string drawn from the character class `[0-9.]`,
represented exactly as a pair (mantissa, scale) with value
mantissa / 10 ^ scale; `none` models NaN (two or more dots, a lone dot, or a
character outside the class). -/
def jsNumber (s : Str) : Option (Nat × Nat) :=
  match splitOnChar '.' s with
  | [a] => if a.all isAsciiDigit then some (digitsToNat a, 0) else none
  | [a, b] =>
    if a.all isAsciiDigit && b.all isAsciiDigit && !(a.isEmpty && b.isEmpty) then
      some (digitsToNat (a ++ b), b.length)
    else none
  | _ => none

/-- ECMAScript `SortCompare` for the comparator
`(a, b) => Number(b) - Number(a)` of `fetchTargetStableVersion`
(src/lib/download.ts:45). The comparator's float result is consumed only
through its sign; it is modelled sign-exactly by the integer cross product,
and a NaN result (either operand failing to parse as a number) is mapped to
+0 exactly as `SortCompare` prescribes. -/
def sortCompareDesc (a b : Str) : Int :=
  match jsNumber a, jsNumber b with
  | some (ma, sa), some (mb, sb) =>
    ((mb * 10 ^ sa : Nat) : Int) - ((ma * 10 ^ sb : Nat) : Int)
  | _, _ => 0

/-- Stable insertion of an element coming before every element of the target
list in the original order: it is placed before the first element it does
not compare after. -/
def sortInsert {α : Type} (cmp : α → α → Int) (x : α) : List α → List α
  | [] => [x]
  | y :: ys => if cmp x y ≤ 0 then x :: y :: ys else y :: sortInsert cmp x ys

/-- ECMAScript `Array.prototype.sort`: a stable sort with respect to
`SortCompare`. For a consistent comparator the specification determines the
result uniquely (the stable sorted permutation), which this insertion sort
realizes. -/
def stableSortBy {α : Type} (cmp : α → α → Int) : List α → List α
  | [] => []
  | x :: xs => sortInsert cmp x (stableSortBy cmp xs)

/-- ASCII lowercase test, the character class `[a-z]`. -/
def isLowerAlpha (c : Char) : Bool := decide ('a' ≤ c) && decide (c ≤ 'z')

/-- Version-segment character class `[0-9.]`. -/
def isVersionChar (c : Char) : Bool := isAsciiDigit c || c == '.'

/-- Match of `downloadDirNameFormat`, the regular expression
`^vscode-(?<platform>[a-z]+)-(?<version>[0-9.]+)$`
(src/lib/download.ts:25), returning the two capture groups. Since the
platform group admits only lowercase letters and the version group only
digits and dots (neither may contain a dash), a name matches exactly when
the text after "vscode-" has a single dash separating nonempty runs of the
two classes. -/
def downloadDirNameFormat (entry : Str) : Option (Str × Str) :=
  if (str "vscode-").isPrefixOf entry then
    match splitOnChar '-' (entry.drop 7) with
    | [p, v] =>
      if !p.isEmpty && p.all isLowerAlpha && !v.isEmpty && v.all isVersionChar then
        some (p, v)
      else none
    | _ => none
  else none

/-- The version segments of the cache-directory names matching the requested
platform, in directory order: the pipeline
`entries.map(exec).filter(isDefined).filter(platform).map(version)` of
src/lib/download.ts:41-44 (`filterMap` fuses the map and the defined
filter). -/
def matchedCacheVersions (cacheEntries : List Str) (platform : Str) : List Str :=
  ((cacheEntries.filterMap downloadDirNameFormat).filter
    (fun pv => pv.1 == platform)).map (fun pv => pv.2)

/-- Model of `fetchTargetStableVersion` (src/lib/download.ts:35-56). The
update-service request is abstracted as its outcome (`ok` with the catalog
list, or `error` carrying the thrown value); `cacheEntries` models
`fs.promises.readdir(cachePath)` (an unreadable directory yields `[]`). On
fetch failure the matching version segments are sorted with the comparator
`(a, b) => Number(b) - Number(a)` and the first is returned; with no match
the original error is rethrown. On success the first catalog entry is
returned (`none` models the undefined result on an empty catalog). -/
def fetchTargetStableVersion {ε : Type} (stableFetch : Except ε (List Str))
    (cacheEntries : List Str) (platform : Str) : Except ε (Option Str) :=
  match stableFetch with
  | Except.ok versions => Except.ok versions.head?
  | Except.error e =>
    match (stableSortBy sortCompareDesc (matchedCacheVersions cacheEntries platform)).head? with
    | some fallbackTo => Except.ok (some fallbackTo)
    | none => Except.error e

/-- Claim C5 counterexample: with the catalog fetch failing and cached
versions 1.2.3 and 2.0.0 for the platform (in that directory order), the
claim's "numerically newest-first" rule selects 2.0.0, but the code returns
1.2.3: both version segments convert to NaN under JS `Number` (two dots), so
the comparator returns NaN, `SortCompare` maps it to +0, and the stable sort
leaves directory order unchanged. -/
theorem c5_counterexample :
    fetchTargetStableVersion (Except.error (0 : Nat))
        [str "vscode-linux-1.2.3", str "vscode-linux-2.0.0"] (str "linux") =
      Except.ok (some (str "1.2.3")) ∧
      str "1.2.3" ≠ str "2.0.0" ∧
      jsNumber (str "1.2.3") = none ∧ jsNumber (str "2.0.0") = none ∧
      sortCompareDesc (str "1.2.3") (str "2.0.0") = 0 := by
  refine ⟨rfl, by decide, by decide, by decide, by decide⟩

theorem mem_sortInsert {α : Type} (cmp : α → α → Int) (x y : α) (l : List α) :
    y ∈ sortInsert cmp x l ↔ y = x ∨ y ∈ l := by
  induction l with
  | nil => simp [sortInsert]
  | cons z zs ih =>
    by_cases h : cmp x z ≤ 0
    · simp [sortInsert, h]
    · simp only [sortInsert, if_neg h, List.mem_cons, ih]
      tauto

theorem mem_stableSortBy {α : Type} (cmp : α → α → Int) (y : α) (l : List α) :
    y ∈ stableSortBy cmp l ↔ y ∈ l := by
  induction l with
  | nil => simp [stableSortBy]
  | cons x xs ih =>
    simp only [stableSortBy, mem_sortInsert, List.mem_cons, ih]

theorem stableSortBy_eq_nil_iff {α : Type} (cmp : α → α → Int) (l : List α) :
    stableSortBy cmp l = [] ↔ l = [] := by
  cases l with
  | nil => simp [stableSortBy]
  | cons x xs =>
    constructor
    · intro h
      have : x ∈ stableSortBy cmp (x :: xs) := by
        rw [mem_stableSortBy]
        exact List.mem_cons_self x xs
      rw [h] at this
      cases this
    · intro h
      cases h

theorem stableSortBy_all_nonpos {α : Type} (cmp : α → α → Int) (l : List α)
    (h : ∀ x ∈ l, ∀ y ∈ l, cmp x y ≤ 0) : stableSortBy cmp l = l := by
  induction l with
  | nil => rfl
  | cons x xs ih =>
    have hxs : ∀ a ∈ xs, ∀ b ∈ xs, cmp a b ≤ 0 := fun a ha b hb =>
      h a (List.mem_cons_of_mem x ha) b (List.mem_cons_of_mem x hb)
    rw [stableSortBy, ih hxs]
    cases xs with
    | nil => rfl
    | cons y ys =>
      have hxy : cmp x y ≤ 0 :=
        h x (List.mem_cons_self x (y :: ys)) y
          (List.mem_cons_of_mem x (List.mem_cons_self y ys))
      simp [sortInsert, hxy]

theorem sortCompareDesc_self (a : Str) : sortCompareDesc a a = 0 := by
  unfold sortCompareDesc
  cases h : jsNumber a with
  | none => rfl
  | some p =>
    cases p with
    | mk m s => simp

theorem mul_le_cancel_aux {mu my mx a b c : Nat} (hb : 0 < b)
    (h1 : mu * b ≤ my * a) (h2 : my * c ≤ mx * b) : mu * c ≤ mx * a := by
  have hkey : b * (mu * c) ≤ b * (mx * a) := by
    calc b * (mu * c) = mu * b * c := by ring
      _ ≤ my * a * c := Nat.mul_le_mul_right c h1
      _ = my * c * a := by ring
      _ ≤ mx * b * a := Nat.mul_le_mul_right a h2
      _ = b * (mx * a) := by ring
  exact Nat.le_of_mul_le_mul_left hkey hb

theorem sortCompareDesc_nonpos_iff {x y : Str} {mx sx my sy : Nat}
    (hx : jsNumber x = some (mx, sx)) (hy : jsNumber y = some (my, sy)) :
    sortCompareDesc x y ≤ 0 ↔ my * 10 ^ sx ≤ mx * 10 ^ sy := by
  unfold sortCompareDesc
  rw [hx, hy]
  show ((my * 10 ^ sx : Nat) : Int) - ((mx * 10 ^ sy : Nat) : Int) ≤ 0 ↔
    my * 10 ^ sx ≤ mx * 10 ^ sy
  omega

theorem sortCompareDesc_trans {x y u : Str} {mx sx my sy mu su : Nat}
    (hx : jsNumber x = some (mx, sx)) (hy : jsNumber y = some (my, sy))
    (hu : jsNumber u = some (mu, su))
    (h1 : sortCompareDesc x y ≤ 0) (h2 : sortCompareDesc y u ≤ 0) :
    sortCompareDesc x u ≤ 0 := by
  rw [sortCompareDesc_nonpos_iff hx hy] at h1
  rw [sortCompareDesc_nonpos_iff hy hu] at h2
  rw [sortCompareDesc_nonpos_iff hx hu]
  exact mul_le_cancel_aux (Nat.pos_pow_of_pos sy (by omega)) h2 h1

theorem sortCompareDesc_neg {x y : Str} {mx sx my sy : Nat}
    (hx : jsNumber x = some (mx, sx)) (hy : jsNumber y = some (my, sy)) :
    sortCompareDesc y x = - sortCompareDesc x y := by
  unfold sortCompareDesc
  rw [hx, hy]
  show ((mx * 10 ^ sy : Nat) : Int) - ((my * 10 ^ sx : Nat) : Int) =
    -(((my * 10 ^ sx : Nat) : Int) - ((mx * 10 ^ sy : Nat) : Int))
  omega

/-- The head of the stable sort under the descending numeric comparator is a
numerically maximal element, whenever every element parses as a JS number. -/
theorem stableSortBy_head_max (l : List Str)
    (hnum : ∀ x ∈ l, (jsNumber x).isSome = true) :
    ∀ v, (stableSortBy sortCompareDesc l).head? = some v →
      v ∈ l ∧ ∀ u ∈ l, sortCompareDesc v u ≤ 0 := by
  induction l with
  | nil =>
    intro v hv
    cases hv
  | cons x xs ih =>
    intro v hv
    have hnumxs : ∀ a ∈ xs, (jsNumber a).isSome = true := fun a ha =>
      hnum a (List.mem_cons_of_mem x ha)
    rw [stableSortBy] at hv
    cases hs : stableSortBy sortCompareDesc xs with
    | nil =>
      rw [hs] at hv
      simp only [sortInsert, List.head?_cons, Option.some.injEq] at hv
      subst hv
      have hxs : xs = [] := (stableSortBy_eq_nil_iff sortCompareDesc xs).mp hs
      subst hxs
      refine ⟨List.mem_cons_self x [], ?_⟩
      intro u hu
      rcases List.mem_cons.mp hu with rfl | hu'
      · exact le_of_eq (sortCompareDesc_self u)
      · cases hu'
    | cons y ys =>
      rw [hs] at hv
      have hymem : y ∈ xs := by
        have hy : y ∈ stableSortBy sortCompareDesc xs := by
          rw [hs]
          exact List.mem_cons_self y ys
        exact (mem_stableSortBy sortCompareDesc y xs).mp hy
      have hyIH := ih hnumxs y (by rw [hs]; rfl)
      obtain ⟨⟨my, sy⟩, hyn⟩ :=
        Option.isSome_iff_exists.mp (hnumxs y hymem)
      obtain ⟨⟨mx, sx⟩, hxn⟩ :=
        Option.isSome_iff_exists.mp (hnum x (List.mem_cons_self x xs))
      by_cases hxy : sortCompareDesc x y ≤ 0
      · rw [sortInsert, if_pos hxy] at hv
        simp only [List.head?_cons, Option.some.injEq] at hv
        subst hv
        refine ⟨List.mem_cons_self x xs, ?_⟩
        intro u hu
        rcases List.mem_cons.mp hu with rfl | hu'
        · exact le_of_eq (sortCompareDesc_self u)
        · obtain ⟨⟨mu, su⟩, hun⟩ := Option.isSome_iff_exists.mp (hnumxs u hu')
          exact sortCompareDesc_trans hxn hyn hun hxy (hyIH.2 u hu')
      · rw [sortInsert, if_neg hxy] at hv
        simp only [List.head?_cons, Option.some.injEq] at hv
        subst hv
        refine ⟨List.mem_cons_of_mem x hymem, ?_⟩
        intro u hu
        rcases List.mem_cons.mp hu with rfl | hu'
        · have := sortCompareDesc_neg hxn hyn
          omega
        · exact hyIH.2 u hu'

/-- Claim C5, amended: when the stable-catalog fetch fails,
`fetchTargetStableVersion` scans cache-directory names against
`^vscode-([a-z]+)-([0-9.]+)$` and keeps the version segments whose platform
group equals the requested platform. If no entry matches, the original fetch
error propagates unchanged. If every matching version segment converts to a
JS number (at most one dot), the returned version is a numerically maximal
one. But version segments with two or more dots — every real x.y.z version —
convert to NaN, the comparator returns +0 for them, and the stable sort
preserves directory order, so in that case the entry returned is simply the
first matching one in directory order, not the numerically newest. -/
theorem c5_amended {ε : Type} (e : ε) (cacheEntries : List Str) (platform : Str) :
    (matchedCacheVersions cacheEntries platform = [] →
      fetchTargetStableVersion (Except.error e) cacheEntries platform =
        Except.error e) ∧
    ((∀ x ∈ matchedCacheVersions cacheEntries platform, (jsNumber x).isSome = true) →
      matchedCacheVersions cacheEntries platform ≠ [] →
      ∃ v, fetchTargetStableVersion (Except.error e) cacheEntries platform =
          Except.ok (some v) ∧
        v ∈ matchedCacheVersions cacheEntries platform ∧
        ∀ u ∈ matchedCacheVersions cacheEntries platform, sortCompareDesc v u ≤ 0) ∧
    ((∀ x ∈ matchedCacheVersions cacheEntries platform, jsNumber x = none) →
      fetchTargetStableVersion (Except.error e) cacheEntries platform =
        (match (matchedCacheVersions cacheEntries platform).head? with
         | some v => Except.ok (some v)
         | none => Except.error e)) := by
  refine ⟨?_, ?_, ?_⟩
  · intro hempty
    unfold fetchTargetStableVersion
    rw [hempty]
    rfl
  · intro hnum hne
    cases hhead : (stableSortBy sortCompareDesc
        (matchedCacheVersions cacheEntries platform)).head? with
    | none =>
      exfalso
      rw [List.head?_eq_none_iff] at hhead
      exact hne ((stableSortBy_eq_nil_iff sortCompareDesc _).mp hhead)
    | some v =>
      have hmax := stableSortBy_head_max _ hnum v hhead
      refine ⟨v, ?_, hmax.1, hmax.2⟩
      unfold fetchTargetStableVersion
      rw [hhead]
  · intro hnan
    have hall : ∀ x ∈ matchedCacheVersions cacheEntries platform,
        ∀ y ∈ matchedCacheVersions cacheEntries platform,
          sortCompareDesc x y ≤ 0 := by
      intro x hx y hy
      unfold sortCompareDesc
      rw [hnan x hx]
    unfold fetchTargetStableVersion
    rw [stableSortBy_all_nonpos sortCompareDesc _ hall]

/-- Claim C5 amended, witness: versions 1.2, 3 and 2.5 for platform darwin
all parse as JS numbers; a numerically maximal one is returned, and with an
empty cache the error propagates. -/
theorem c5_witness :
    (matchedCacheVersions [] (str "darwin") = [] ∧
      fetchTargetStableVersion (Except.error (7 : Nat)) [] (str "darwin") =
        Except.error 7) ∧
    ((∀ x ∈ matchedCacheVersions
        [str "vscode-darwin-1.2", str "vscode-darwin-3", str "vscode-darwin-2.5"]
        (str "darwin"), (jsNumber x).isSome = true) ∧
      ∃ v, fetchTargetStableVersion (Except.error (7 : Nat))
          [str "vscode-darwin-1.2", str "vscode-darwin-3", str "vscode-darwin-2.5"]
          (str "darwin") = Except.ok (some v) ∧
        v ∈ matchedCacheVersions
          [str "vscode-darwin-1.2", str "vscode-darwin-3", str "vscode-darwin-2.5"]
          (str "darwin") ∧
        ∀ u ∈ matchedCacheVersions
          [str "vscode-darwin-1.2", str "vscode-darwin-3", str "vscode-darwin-2.5"]
          (str "darwin"), sortCompareDesc v u ≤ 0) := by
  refine ⟨⟨by decide, ?_⟩, by decide, ?_⟩
  · exact (c5_amended (7 : Nat) [] (str "darwin")).1 (by decide)
  · exact (c5_amended (7 : Nat)
      [str "vscode-darwin-1.2", str "vscode-darwin-3", str "vscode-darwin-2.5"]
      (str "darwin")).2.1 (by decide) (by decide)

/-! Zip extraction and the zip-slip defence
(src/unnamed/part_010:162-215, src/lib/request.ts:485-488). -/

/-- An absolute, normalized filesystem path as a list of name components. -/
abbrev FsPath := List Str

/-- One step of path normalization: "." and empty segments vanish, ".."
removes the previous component (and is dropped at the root, as for absolute
paths), any other name is appended. -/
def normStep (stack : FsPath) (comp : Str) : FsPath :=
  if comp = [] ∨ comp = str "." then stack
  else if comp = str ".." then stack.dropLast
  else stack ++ [comp]

/-- Node `path.join(dir, name)` for an absolute normalized `dir`: the
segments of `name` are appended and the result is normalized. -/
def pathJoinNorm (dir : FsPath) (name : Str) : FsPath :=
  (splitOnChar '/' name).foldl normStep dir

/-- Components of Node `path.relative(parent, child)` for absolute
normalized inputs: strip the common prefix, then one ".." per remaining
parent component, followed by the remaining child components. -/
def relativeComps : FsPath → FsPath → FsPath
  | p :: ps, c :: cs =>
    if p = c then relativeComps ps cs
    else List.replicate (ps.length + 1) (str "..") ++ (c :: cs)
  | ps, cs => List.replicate ps.length (str "..") ++ cs

/-- Model of `isSubdirectory` (src/lib/request.ts:485-488): the relative
path from parent to child must not start with ".." and must not be
absolute. Joined with separators, the relative string starts with ".."
exactly when its first component does, and `path.relative` of two absolute
paths is never absolute, so that conjunct is identically true. -/
def isSubdirectory (parent child : FsPath) : Bool :=
  match relativeComps parent child with
  | [] => true
  | c :: _ => !((str "..").isPrefixOf c)

/-- An entry of a zip archive: its path inside the archive and whether it is
a directory entry. -/
structure ZipEntry where
  name : Str
  dir : Bool
deriving DecidableEq, Repr

/-- The win32 jszip extraction loop (src/unnamed/part_010:184-198): for each
file entry, resolve `path.join(extractDir, filename)`, abort with an
`Invalid zip file` error when the result is not inside `extractDir`,
otherwise create the parent directory and write the file. Returns the files
written, in order, and the aborting error, if any. -/
def extractEntriesWin (extractDir : FsPath) : List ZipEntry → List FsPath × Option Str
  | [] => ([], none)
  | e :: rest =>
    if e.dir then extractEntriesWin extractDir rest
    else
      let filepath := pathJoinNorm extractDir e.name
      if !isSubdirectory extractDir filepath then
        ([], some (str "Invalid zip file: " ++ e.name))
      else
        let t := extractEntriesWin extractDir rest
        (filepath :: t.1, t.2)

/-- Observable outcomes of `unzipVSCode` on a zip stream
(src/unnamed/part_010:171-206). -/
inductive UnzipResult where
  | ok
  | invalidArchive (msg : Str)
  | decompressorExit (code : Int)
deriving DecidableEq, Repr

/-- Model of the zip branch of `unzipVSCode` (src/unnamed/part_010:171-206):
on win32 the jszip loop runs with its per-entry containment check; on every
other platform the stream is piped to a staging file and handed to the
external `unzip` child process (src/unnamed/part_010:200-202), whose only
failure mode at this layer is a nonzero exit code
(src/unnamed/part_010:217-233) — no per-entry check is performed. -/
def unzipVSCodeZip (win32 : Bool) (extractDir : FsPath) (entries : List ZipEntry)
    (unzipToolExit : Int) : UnzipResult :=
  if win32 then
    match (extractEntriesWin extractDir entries).2 with
    | some msg => UnzipResult.invalidArchive msg
    | none => UnzipResult.ok
  else if unzipToolExit = 0 then UnzipResult.ok
  else UnzipResult.decompressorExit unzipToolExit

/-- Claim C6 counterexample: the entry "../evil" resolves outside the
extraction directory; on the Windows path extraction fails with the
`Invalid zip file` error, but on the darwin/linux zip path — where
extraction is delegated to the external `unzip` tool — no `InvalidArchive`
error can arise: with the tool exiting 0 the extraction reports success, so
the protection does not hold on every platform's zip-extraction path. -/
theorem c6_counterexample :
    isSubdirectory [str "tmp", str "ext"]
        (pathJoinNorm [str "tmp", str "ext"] (str "../evil")) = false ∧
      unzipVSCodeZip false [str "tmp", str "ext"]
        [ZipEntry.mk (str "../evil") false] 0 = UnzipResult.ok ∧
      unzipVSCodeZip true [str "tmp", str "ext"]
        [ZipEntry.mk (str "../evil") false] 0 =
        UnzipResult.invalidArchive (str "Invalid zip file: ../evil") := by
  refine ⟨by decide, rfl, by decide⟩

/-- Claim C6, amended: on the Windows (jszip) zip-extraction path, an
archive containing a file entry that resolves outside the extraction
directory makes extraction fail with the `Invalid zip file` error, and —
whether or not extraction aborts — every file written lies inside the
extraction directory; on the other platforms the zip branch delegates to the
external `unzip` tool and performs no such containment check, so no
`InvalidArchive` error arises there. -/
theorem c6_amended (extractDir : FsPath) (entries : List ZipEntry)
    (unzipToolExit : Int) :
    ((∃ e ∈ entries, e.dir = false ∧
        isSubdirectory extractDir (pathJoinNorm extractDir e.name) = false) →
      ∃ msg, unzipVSCodeZip true extractDir entries unzipToolExit =
        UnzipResult.invalidArchive msg) ∧
    (∀ f ∈ (extractEntriesWin extractDir entries).1,
      isSubdirectory extractDir f = true) ∧
    unzipVSCodeZip false extractDir entries 0 = UnzipResult.ok := by
  refine ⟨?_, ?_, by simp [unzipVSCodeZip]⟩
  · intro hbad
    have habort : ∃ msg, (extractEntriesWin extractDir entries).2 = some msg := by
      induction entries with
      | nil => simp at hbad
      | cons e rest ih =>
        rcases hbad with ⟨b, hb, hbd, hbsub⟩
        rcases List.mem_cons.mp hb with rfl | hbrest
        · rw [extractEntriesWin, if_neg (by simp [hbd]), if_pos (by simp [hbsub])]
          exact ⟨_, rfl⟩
        · by_cases hed : e.dir
          · rw [extractEntriesWin, if_pos hed]
            exact ih ⟨b, hbrest, hbd, hbsub⟩
          · by_cases hsub : isSubdirectory extractDir (pathJoinNorm extractDir e.name)
            · rw [extractEntriesWin, if_neg hed, if_neg (by simp [hsub])]
              exact ih ⟨b, hbrest, hbd, hbsub⟩
            · rw [extractEntriesWin, if_neg hed,
                if_pos (by simp [Bool.eq_false_iff.mpr hsub])]
              exact ⟨_, rfl⟩
    rcases habort with ⟨msg, hmsg⟩
    exact ⟨msg, by simp [unzipVSCodeZip, hmsg]⟩
  · induction entries with
    | nil => simp [extractEntriesWin]
    | cons e rest ih =>
      by_cases hed : e.dir
      · rw [extractEntriesWin, if_pos hed]
        exact ih
      · by_cases hsub : isSubdirectory extractDir (pathJoinNorm extractDir e.name)
        · rw [extractEntriesWin, if_neg hed, if_neg (by simp [hsub])]
          intro f hf
          rcases List.mem_cons.mp hf with rfl | hfrest
          · exact hsub
          · exact ih f hfrest
        · rw [extractEntriesWin, if_neg hed,
            if_pos (by simp [Bool.eq_false_iff.mpr hsub])]
          intro f hf
          cases hf

/-- Claim C6 amended, witness: the "../evil" archive at a concrete
extraction directory. -/
theorem c6_amended_witness :
    ((∃ e ∈ [ZipEntry.mk (str "../evil") false], e.dir = false ∧
        isSubdirectory [str "tmp", str "ext"]
          (pathJoinNorm [str "tmp", str "ext"] e.name) = false) ∧
      ∃ msg, unzipVSCodeZip true [str "tmp", str "ext"]
        [ZipEntry.mk (str "../evil") false] 0 =
          UnzipResult.invalidArchive msg) ∧
      (∀ f ∈ (extractEntriesWin [str "tmp", str "ext"]
          [ZipEntry.mk (str "../evil") false]).1,
        isSubdirectory [str "tmp", str "ext"] f = true) ∧
      unzipVSCodeZip false [str "tmp", str "ext"]
        [ZipEntry.mk (str "../evil") false] 0 = UnzipResult.ok := by
  have h := c6_amended [str "tmp", str "ext"] [ZipEntry.mk (str "../evil") false] 0
  exact ⟨⟨by decide, h.1 (by decide)⟩, h.2.1, h.2.2⟩

/-! The download orchestration (src/lib/download.ts:220-304). -/

/-- Progress reports issued by `download`, with the payloads the claims
consult (src/lib/progress.ts, src/lib/download.ts:243-297). -/
inductive DlReport where
  | resolvedVersion (version : Str)
  | fetchingInsidersMetadata
  | foundMatchingInstall
  | replacingOldInsiders (oldHash newHash : Str)
  | newInstallComplete
  | retrying (attempt totalAttempts : Nat)
deriving DecidableEq, Repr

/-- Recognizes the `Retrying` progress stage. -/
def isRetryReport : DlReport → Bool
  | DlReport.retrying _ _ => true
  | _ => false

/-- Observable on-disk state of the cache entry `vscode-<platform>-<version>`:
whether the directory exists — the only fact the code consults, via
`fs.existsSync` (src/lib/download.ts:234,246) — and, as ground truth the
code cannot read (no marker file exists), whether a previous extraction ran
to completion. -/
structure DlWorld where
  dirExists : Bool
  complete : Bool
deriving DecidableEq, Repr

/-- Environment oracles for one invocation of `download`: membership of the
requested version in either remote catalog (the outcome of the
`isValidVersion` network checks), success of the n-th download-and-extract
attempt, the commit hash read from the cached install's product.json, the
hash of the latest insiders build from the update service, and whether
removing an outdated insiders directory succeeds. -/
structure DlEnv where
  versionValid : Bool
  attemptOk : Nat → Bool
  currentHash : Str
  latestHash : Str
  rmdirOk : Bool

/-- Errors thrown by `download` (src/lib/download.ts:236,270,293). -/
inductive DlError where
  | invalidVersion (version : Str)
  | removeInsidersFailed
  | downloadFailed (version : Str)
deriving DecidableEq, Repr

/-- Outcome of one invocation of `download`: its result, the cache-entry
state afterwards (`none` when the invocation failed mid-extraction or
mid-removal and left the directory in an unspecified state), the progress
reports in order, whether a remote version validation was performed, whether
the latest-insiders metadata was fetched, and how many artifact download
attempts were started. -/
structure DlOutcome where
  result : Except DlError Str
  world : Option DlWorld
  reports : List DlReport
  validatedRemotely : Bool
  fetchedInsidersMeta : Bool
  artifactDownloads : Nat

/-- Cache-directory name for a platform and version,
`vscode-<platform>-<version>` (src/lib/download.ts:26). -/
def makeDownloadDirName (platform version : Str) : Str :=
  str "vscode-" ++ platform ++ str "-" ++ version

/-- Windows download platforms (src/lib/request.ts:148). -/
def windowsPlatforms : List Str := [str "win32-x64-archive", str "win32-arm64-archive"]

/-- macOS download platforms (src/lib/request.ts:149). -/
def darwinPlatforms : List Str := [str "darwin-arm64", str "darwin"]

/-- Model of `downloadDirToExecutablePath` (src/lib/request.ts:232-240);
`path.resolve(dir, rel)` of an absolute dir is modelled as joining with a
separator. -/
def downloadDirToExecutablePath (dir platform : Str) : Str :=
  if windowsPlatforms.contains platform then dir ++ str "/Code.exe"
  else if darwinPlatforms.contains platform then
    dir ++ str "/Visual Studio Code.app/Contents/MacOS/Electron"
  else dir ++ str "/code"

/-- Model of `insidersDownloadDirToExecutablePath`
(src/lib/request.ts:242-250). -/
def insidersDownloadDirToExecutablePath (dir platform : Str) : Str :=
  if windowsPlatforms.contains platform then dir ++ str "/Code - Insiders.exe"
  else if darwinPlatforms.contains platform then
    dir ++ str "/Visual Studio Code - Insiders.app/Contents/MacOS/Electron"
  else dir ++ str "/code-insiders"

/-- The fixed attempt budget (src/lib/download.ts:28). -/
def DOWNLOAD_ATTEMPTS : Nat := 3

/-- The retry loop of `download` (src/lib/download.ts:282-296):
`for (let i = 0; ; i++)` whose catch block runs `if (i++ < DOWNLOAD_ATTEMPTS)`
— so `i` is incremented once inside the catch (after the comparison with its
old value) and once more by the loop update, advancing by two per failed
attempt — and reports `Retrying` with the value of `i` after the inner
increment. `made` counts the attempts started (the oracle's index). Returns
the reports issued by the loop, whether it succeeded, and the number of
attempts made. -/
def retryLoop (attemptOk : Nat → Bool) (i made : Nat) : List DlReport × Bool × Nat :=
  if attemptOk made then ([DlReport.newInstallComplete], true, made + 1)
  else if h : i < DOWNLOAD_ATTEMPTS then
    let t := retryLoop attemptOk (i + 2) (made + 1)
    (DlReport.retrying (i + 1) DOWNLOAD_ATTEMPTS :: t.1, t.2.1, t.2.2)
  else ([], false, made + 1)
termination_by DOWNLOAD_ATTEMPTS - i
decreasing_by simp only [DOWNLOAD_ATTEMPTS] at h ⊢; omega

/-- Runs the retry loop and finishes the invocation
(src/lib/download.ts:282-303): on success the loop has already reported
`NewInstallComplete` once, line 297 reports it again, and the executable
path is chosen by `isStableVersionIdentifier`; on exhaustion the invocation
throws `Failed to download and unzip VS Code <version>`. -/
def runDownloadLoop (env : DlEnv) (version platform : Str)
    (startReports : List DlReport) (validated fetchedMeta : Bool) : DlOutcome :=
  let downloadedPath := makeDownloadDirName platform version
  let t := retryLoop env.attemptOk 0 0
  if t.2.1 then
    { result := Except.ok (if isStableVersionIdentifier version then
        downloadDirToExecutablePath downloadedPath platform
      else insidersDownloadDirToExecutablePath downloadedPath platform),
      world := some { dirExists := true, complete := true },
      reports := startReports ++ t.1 ++ [DlReport.newInstallComplete],
      validatedRemotely := validated, fetchedInsidersMeta := fetchedMeta,
      artifactDownloads := t.2.2 }
  else
    { result := Except.error (DlError.downloadFailed version),
      world := none,
      reports := startReports ++ t.1,
      validatedRemotely := validated, fetchedInsidersMeta := fetchedMeta,
      artifactDownloads := t.2.2 }

/-- Model of `download` (src/lib/download.ts:220-304) for an explicitly
requested version. (A request for `stable` or no version first resolves
through `fetchTargetStableVersion`, modelled separately, and then proceeds
exactly as here with the resolved version; no remote validation happens on
that path, matching the `version !== 'stable'` guard.) Steps: when no cache
directory exists for (platform, version), the version is validated remotely
— `isValidVersion` short-circuits on `insiders` without any network request
(src/lib/download.ts:58-61) — and an invalid version throws before anything
else; then `ResolvedVersion` is reported; when the cache directory exists
(the only completeness test the code makes), `insiders` fetches the latest
metadata and either short-circuits on matching hashes or reports
`ReplacingOldInsiders` and purges, a stable-classified version
short-circuits to the stable executable path, and any other version
short-circuits to the insiders executable path; otherwise the retry loop
downloads and extracts. -/
def download (env : DlEnv) (version platform : Str) (w : DlWorld) : DlOutcome :=
  let downloadedPath := makeDownloadDirName platform version
  if version ≠ str "stable" ∧ w.dirExists = false ∧ version ≠ str "insiders" ∧
      env.versionValid = false then
    { result := Except.error (DlError.invalidVersion version), world := some w,
      reports := [], validatedRemotely := true, fetchedInsidersMeta := false,
      artifactDownloads := 0 }
  else
    let validated := decide (version ≠ str "stable") && !w.dirExists &&
      decide (version ≠ str "insiders")
    if w.dirExists then
      if version = str "insiders" then
        if env.currentHash = env.latestHash then
          { result := Except.ok (insidersDownloadDirToExecutablePath downloadedPath platform),
            world := some w,
            reports := [DlReport.resolvedVersion version, DlReport.fetchingInsidersMetadata,
              DlReport.foundMatchingInstall],
            validatedRemotely := validated, fetchedInsidersMeta := true,
            artifactDownloads := 0 }
        else if env.rmdirOk then
          runDownloadLoop env version platform
            [DlReport.resolvedVersion version, DlReport.fetchingInsidersMetadata,
              DlReport.replacingOldInsiders env.currentHash env.latestHash]
            validated true
        else
          { result := Except.error DlError.removeInsidersFailed, world := none,
            reports := [DlReport.resolvedVersion version, DlReport.fetchingInsidersMetadata,
              DlReport.replacingOldInsiders env.currentHash env.latestHash],
            validatedRemotely := validated, fetchedInsidersMeta := true,
            artifactDownloads := 0 }
      else if isStableVersionIdentifier version then
        { result := Except.ok (downloadDirToExecutablePath downloadedPath platform),
          world := some w,
          reports := [DlReport.resolvedVersion version, DlReport.foundMatchingInstall],
          validatedRemotely := validated, fetchedInsidersMeta := false,
          artifactDownloads := 0 }
      else
        { result := Except.ok (insidersDownloadDirToExecutablePath downloadedPath platform),
          world := some w,
          reports := [DlReport.resolvedVersion version, DlReport.foundMatchingInstall],
          validatedRemotely := validated, fetchedInsidersMeta := false,
          artifactDownloads := 0 }
    else
      runDownloadLoop env version platform [DlReport.resolvedVersion version] validated false

theorem retryLoop_first_ok (attemptOk : Nat → Bool) (h : attemptOk 0 = true) :
    retryLoop attemptOk 0 0 = ([DlReport.newInstallComplete], true, 1) := by
  rw [retryLoop, h]
  simp

theorem retryLoop_all_fail (attemptOk : Nat → Bool) (h : ∀ n, attemptOk n = false) :
    retryLoop attemptOk 0 0 =
      ([DlReport.retrying 1 DOWNLOAD_ATTEMPTS, DlReport.retrying 3 DOWNLOAD_ATTEMPTS],
        false, 3) := by
  rw [retryLoop, h 0, retryLoop, h (0 + 1), retryLoop, h (0 + 1 + 1)]
  norm_num [DOWNLOAD_ATTEMPTS]

/-- Claim C1 counterexample: with every download-and-extract attempt
failing, the call does fail and makes exactly 3 attempts, but only 2
`Retrying` events are reported, with attempt numbers 1 and 3 — not 3 events
with attempt numbers increasing by one — because the loop index is
incremented both inside the catch and by the loop update. -/
theorem c1_counterexample :
    (download (DlEnv.mk true (fun _ => false) (str "") (str "") true)
        (str "1.2.3") (str "linux-x64") (DlWorld.mk false false)).reports =
      [DlReport.resolvedVersion (str "1.2.3"),
        DlReport.retrying 1 3, DlReport.retrying 3 3] ∧
    ((download (DlEnv.mk true (fun _ => false) (str "") (str "") true)
        (str "1.2.3") (str "linux-x64") (DlWorld.mk false false)).reports.filter
      isRetryReport).length = 2 ∧
    (download (DlEnv.mk true (fun _ => false) (str "") (str "") true)
        (str "1.2.3") (str "linux-x64") (DlWorld.mk false false)).artifactDownloads = 3 ∧
    (download (DlEnv.mk true (fun _ => false) (str "") (str "") true)
        (str "1.2.3") (str "linux-x64") (DlWorld.mk false false)).result =
      Except.error (DlError.downloadFailed (str "1.2.3")) := by
  have hloop := retryLoop_all_fail (fun _ => false) (fun _ => rfl)
  refine ⟨?_, ?_, ?_, ?_⟩ <;>
    simp [download, runDownloadLoop, hloop, isRetryReport, DOWNLOAD_ATTEMPTS]

/-- Claim C1, amended: if every download-and-extract attempt fails, the
retry budget is 3 total attempts (the 4th attempt is never started) and the
call fails with the `DownloadFailed` error naming the requested version; but
only 2 `Retrying` events reach the progress sink, carrying attempt numbers 1
and 3 (with totalAttempts = 3), because `i` advances by two per failed
attempt (`i++` inside the catch plus the loop update). -/
theorem c1_amended (env : DlEnv) (version platform : Str) (w : DlWorld)
    (hdir : w.dirExists = false) (hvalid : env.versionValid = true)
    (hfail : ∀ n, env.attemptOk n = false) :
    (download env version platform w).result =
      Except.error (DlError.downloadFailed version) ∧
    (download env version platform w).artifactDownloads = DOWNLOAD_ATTEMPTS ∧
    (download env version platform w).reports =
      [DlReport.resolvedVersion version,
        DlReport.retrying 1 DOWNLOAD_ATTEMPTS,
        DlReport.retrying 3 DOWNLOAD_ATTEMPTS] ∧
    ((download env version platform w).reports.filter isRetryReport).length = 2 := by
  have hcond : ¬(version ≠ str "stable" ∧ w.dirExists = false ∧
      version ≠ str "insiders" ∧ env.versionValid = false) := by
    rintro ⟨-, -, -, hv⟩
    rw [hvalid] at hv
    cases hv
  have hloop := retryLoop_all_fail env.attemptOk hfail
  refine ⟨?_, ?_, ?_, ?_⟩ <;>
    simp [download, runDownloadLoop, hcond, hdir, hvalid, hloop, isRetryReport,
      DOWNLOAD_ATTEMPTS]

/-- Claim C1 amended, witness: instantiated with an always-failing attempt
oracle and version 1.2.3. -/
theorem c1_amended_witness :
    ((DlWorld.mk false false).dirExists = false ∧
      (DlEnv.mk true (fun _ => false) (str "") (str "") true).versionValid = true ∧
      (∀ n, (DlEnv.mk true (fun _ => false) (str "") (str "") true).attemptOk n = false)) ∧
    (download (DlEnv.mk true (fun _ => false) (str "") (str "") true)
        (str "1.2.3") (str "win32-x64-archive") (DlWorld.mk false false)).result =
      Except.error (DlError.downloadFailed (str "1.2.3")) ∧
    (download (DlEnv.mk true (fun _ => false) (str "") (str "") true)
        (str "1.2.3") (str "win32-x64-archive") (DlWorld.mk false false)).artifactDownloads =
      DOWNLOAD_ATTEMPTS := by
  have h := c1_amended (DlEnv.mk true (fun _ => false) (str "") (str "") true)
    (str "1.2.3") (str "win32-x64-archive") (DlWorld.mk false false)
    rfl rfl (fun _ => rfl)
  exact ⟨⟨rfl, rfl, fun _ => rfl⟩, h.1, h.2.1⟩

/-- Claim C2 counterexample: a run interrupted during extraction leaves the
cache directory present but incomplete (there is no sentinel marker file in
the code — validity is tested with bare `fs.existsSync`). A subsequent
invocation for the pinned version 1.2.3 treats that directory as a valid
install: it returns its executable path with no purge and no re-download,
and its result is identical to the one for a fully-extracted directory. -/
theorem c2_counterexample :
    (download (DlEnv.mk true (fun _ => false) (str "") (str "") true)
        (str "1.2.3") (str "linux-x64") (DlWorld.mk true false)).result =
      Except.ok (downloadDirToExecutablePath
        (makeDownloadDirName (str "linux-x64") (str "1.2.3")) (str "linux-x64")) ∧
    (download (DlEnv.mk true (fun _ => false) (str "") (str "") true)
        (str "1.2.3") (str "linux-x64") (DlWorld.mk true false)).artifactDownloads = 0 ∧
    (download (DlEnv.mk true (fun _ => false) (str "") (str "") true)
        (str "1.2.3") (str "linux-x64") (DlWorld.mk true false)).world =
      some (DlWorld.mk true false) ∧
    (DlWorld.mk true false).complete = false ∧
    (download (DlEnv.mk true (fun _ => false) (str "") (str "") true)
        (str "1.2.3") (str "linux-x64") (DlWorld.mk true false)).result =
      (download (DlEnv.mk true (fun _ => false) (str "") (str "") true)
        (str "1.2.3") (str "linux-x64") (DlWorld.mk true true)).result := by
  refine ⟨rfl, rfl, rfl, rfl, rfl⟩

/-- Claim C2, amended: the code has no completion marker; a cache directory
counts as a valid install exactly when it exists. After an interrupted
extraction left the directory present, an invocation for a pinned
stable-classified version returns the executable path inside it immediately,
with no purge and no download; only the `insiders` target re-validates by
content hash, short-circuiting on a match and purging and re-downloading on
a mismatch. -/
theorem c2_amended (env : DlEnv) (version platform : Str) (w : DlWorld)
    (hdir : w.dirExists = true) :
    (stableVersionPattern version = true →
      (download env version platform w).result =
        Except.ok (downloadDirToExecutablePath
          (makeDownloadDirName platform version) platform) ∧
      (download env version platform w).artifactDownloads = 0 ∧
      (download env version platform w).fetchedInsidersMeta = false ∧
      (download env version platform w).world = some w) ∧
    (version = str "insiders" → env.currentHash = env.latestHash →
      (download env version platform w).result =
        Except.ok (insidersDownloadDirToExecutablePath
          (makeDownloadDirName platform version) platform) ∧
      (download env version platform w).artifactDownloads = 0 ∧
      (download env version platform w).fetchedInsidersMeta = true ∧
      (download env version platform w).world = some w) ∧
    (version = str "insiders" → env.currentHash ≠ env.latestHash →
      env.rmdirOk = true → env.attemptOk 0 = true →
      (download env version platform w).result =
        Except.ok (insidersDownloadDirToExecutablePath
          (makeDownloadDirName platform version) platform) ∧
      (download env version platform w).artifactDownloads = 1 ∧
      (download env version platform w).fetchedInsidersMeta = true ∧
      (download env version platform w).world = some (DlWorld.mk true true) ∧
      (download env version platform w).reports =
        [DlReport.resolvedVersion version, DlReport.fetchingInsidersMetadata,
          DlReport.replacingOldInsiders env.currentHash env.latestHash,
          DlReport.newInstallComplete, DlReport.newInstallComplete]) := by
  have hcond : ¬(version ≠ str "stable" ∧ w.dirExists = false ∧
      version ≠ str "insiders" ∧ env.versionValid = false) := by
    rintro ⟨-, hv, -⟩
    rw [hdir] at hv
    cases hv
  refine ⟨?_, ?_, ?_⟩
  · intro hstable
    have hni : version ≠ str "insiders" := by
      intro h
      rw [h] at hstable
      exact absurd hstable (by decide)
    have hid : isStableVersionIdentifier version = true := by
      simp [isStableVersionIdentifier, hstable]
    refine ⟨?_, ?_, ?_, ?_⟩ <;> simp [download, hcond, hdir, hni, hid]
  · intro hins hhash
    subst hins
    refine ⟨?_, ?_, ?_, ?_⟩ <;> simp [download, hcond, hdir, hhash]
  · intro hins hhash hrm hfirst
    subst hins
    have hloop := retryLoop_first_ok env.attemptOk hfirst
    have hid : isStableVersionIdentifier (str "insiders") = false := by decide
    refine ⟨?_, ?_, ?_, ?_, ?_⟩ <;>
      simp [download, runDownloadLoop, hcond, hdir, hhash, hrm, hloop, hid]

/-- Claim C2 amended, witness: version 1.2.3 over an incomplete directory
short-circuits; insiders short-circuits on a hash match and re-downloads on
a mismatch. -/
theorem c2_amended_witness :
    ((DlWorld.mk true false).dirExists = true ∧
      stableVersionPattern (str "1.2.3") = true) ∧
    (download (DlEnv.mk true (fun _ => true) (str "aaa") (str "bbb") true)
        (str "1.2.3") (str "darwin") (DlWorld.mk true false)).artifactDownloads = 0 ∧
    ((str "insiders" : Str) = str "insiders" ∧
      (DlEnv.mk true (fun _ => true) (str "aaa") (str "aaa") true).currentHash =
        (DlEnv.mk true (fun _ => true) (str "aaa") (str "aaa") true).latestHash) ∧
    (download (DlEnv.mk true (fun _ => true) (str "aaa") (str "aaa") true)
        (str "insiders") (str "darwin") (DlWorld.mk true false)).fetchedInsidersMeta =
      true ∧
    ((DlEnv.mk true (fun _ => true) (str "aaa") (str "bbb") true).currentHash ≠
        (DlEnv.mk true (fun _ => true) (str "aaa") (str "bbb") true).latestHash ∧
      (DlEnv.mk true (fun _ => true) (str "aaa") (str "bbb") true).rmdirOk = true ∧
      (DlEnv.mk true (fun _ => true) (str "aaa") (str "bbb") true).attemptOk 0 = true) ∧
    (download (DlEnv.mk true (fun _ => true) (str "aaa") (str "bbb") true)
        (str "insiders") (str "darwin") (DlWorld.mk true false)).artifactDownloads = 1 := by
  refine ⟨⟨rfl, by decide⟩, ?_, ⟨rfl, rfl⟩, ?_, ⟨by decide, rfl, rfl⟩, ?_⟩
  · exact ((c2_amended (DlEnv.mk true (fun _ => true) (str "aaa") (str "bbb") true)
      (str "1.2.3") (str "darwin") (DlWorld.mk true false) rfl).1 (by decide)).2.1
  · exact ((c2_amended (DlEnv.mk true (fun _ => true) (str "aaa") (str "aaa") true)
      (str "insiders") (str "darwin") (DlWorld.mk true false) rfl).2.1 rfl rfl).2.2.1
  · exact ((c2_amended (DlEnv.mk true (fun _ => true) (str "aaa") (str "bbb") true)
      (str "insiders") (str "darwin") (DlWorld.mk true false) rfl).2.2 rfl
      (by decide) rfl rfl).2.1

/-- Claim C3: for a pinned exact stable version (one matching the code's
stable pattern, not the literal "stable"), two invocations in sequence
perform exactly one artifact download: the first validates, downloads once
and leaves the cache entry; the second — under any environment, hence with
no dependence on the network — finds the entry, skips remote validation,
fetches nothing, and returns the executable path with zero downloads. -/
theorem c3_idempotence (env1 env2 : DlEnv) (version platform : Str)
    (hstable : stableVersionPattern version = true)
    (hvalid : env1.versionValid = true)
    (hfirst : env1.attemptOk 0 = true) :
    (download env1 version platform (DlWorld.mk false false)).result =
      Except.ok (downloadDirToExecutablePath
        (makeDownloadDirName platform version) platform) ∧
    (download env1 version platform (DlWorld.mk false false)).artifactDownloads = 1 ∧
    (download env1 version platform (DlWorld.mk false false)).world =
      some (DlWorld.mk true true) ∧
    (download env2 version platform (DlWorld.mk true true)).result =
      Except.ok (downloadDirToExecutablePath
        (makeDownloadDirName platform version) platform) ∧
    (download env2 version platform (DlWorld.mk true true)).artifactDownloads = 0 ∧
    (download env2 version platform (DlWorld.mk true true)).validatedRemotely = false ∧
    (download env2 version platform (DlWorld.mk true true)).fetchedInsidersMeta = false ∧
    (download env2 version platform (DlWorld.mk true true)).reports =
      [DlReport.resolvedVersion version, DlReport.foundMatchingInstall] := by
  have hni : version ≠ str "insiders" := by
    intro h
    rw [h] at hstable
    exact absurd hstable (by decide)
  have hid : isStableVersionIdentifier version = true := by
    simp [isStableVersionIdentifier, hstable]
  have hcond1 : ¬(version ≠ str "stable" ∧ (DlWorld.mk false false).dirExists = false ∧
      version ≠ str "insiders" ∧ env1.versionValid = false) := by
    rintro ⟨-, -, -, hv⟩
    rw [hvalid] at hv
    cases hv
  have hcond2 : ¬(version ≠ str "stable" ∧ (DlWorld.mk true true).dirExists = false ∧
      version ≠ str "insiders" ∧ env2.versionValid = false) := by
    rintro ⟨-, hv, -⟩
    cases hv
  have hloop := retryLoop_first_ok env1.attemptOk hfirst
  refine ⟨?_, ?_, ?_, ?_, ?_, ?_, ?_, ?_⟩ <;>
    simp [download, runDownloadLoop, hcond1, hcond2, hni, hid, hvalid, hloop]

/-- Claim C3, witness: version 1.2.3 on linux-x64, the second call run with
a dead-network environment. -/
theorem c3_witness :
    (stableVersionPattern (str "1.2.3") = true ∧
      (DlEnv.mk true (fun _ => true) (str "") (str "") true).versionValid = true ∧
      (DlEnv.mk true (fun _ => true) (str "") (str "") true).attemptOk 0 = true) ∧
    (download (DlEnv.mk true (fun _ => true) (str "") (str "") true)
        (str "1.2.3") (str "linux-x64") (DlWorld.mk false false)).artifactDownloads = 1 ∧
    (download (DlEnv.mk false (fun _ => false) (str "") (str "") false)
        (str "1.2.3") (str "linux-x64") (DlWorld.mk true true)).artifactDownloads = 0 ∧
    (download (DlEnv.mk false (fun _ => false) (str "") (str "") false)
        (str "1.2.3") (str "linux-x64") (DlWorld.mk true true)).validatedRemotely = false ∧
    (download (DlEnv.mk false (fun _ => false) (str "") (str "") false)
        (str "1.2.3") (str "linux-x64") (DlWorld.mk true true)).result =
      Except.ok (downloadDirToExecutablePath
        (makeDownloadDirName (str "linux-x64") (str "1.2.3")) (str "linux-x64")) := by
  have h := c3_idempotence (DlEnv.mk true (fun _ => true) (str "") (str "") true)
    (DlEnv.mk false (fun _ => false) (str "") (str "") false)
    (str "1.2.3") (str "linux-x64") (by decide) rfl rfl
  exact ⟨⟨by decide, rfl, rfl⟩, h.2.1, h.2.2.2.2.1, h.2.2.2.2.2.1, h.2.2.2.1⟩

end VSCodeTest
